import Mathlib

/- Verification development for the IPTV playlist updater (src/main.py).

   Strings are modelled as lists of characters (`Str`); Python float
   latencies as rationals extended with positive infinity (`Ping`);
   the instance dictionary `channels_db` as an insertion-ordered
   association list (`Registry`), matching Python dict semantics for
   lookup and assignment. -/

abbrev Str : Type := List Char

def str (s : String) : Str := s.data

/-- Characters removed by Python str.strip(): space, tab, newline,
carriage return, vertical tab, form feed. -/
def isPySpace (c : Char) : Bool :=
  c = ' ' || c = '\t' || c = '\n' || c = '\r' || c = Char.ofNat 11 || c = Char.ofNat 12

/-- Python str.strip(): drop leading and trailing whitespace. -/
def pyStrip (s : Str) : Str :=
  ((s.dropWhile isPySpace).reverse.dropWhile isPySpace).reverse

/-- Python str.lower() (ASCII case folding, which covers all inputs used here). -/
def pyLower (s : Str) : Str := s.map Char.toLower

/-- Latency value: a Python float that is either finite or positive infinity. -/
inductive Ping where
  | fin (v : ℚ)
  | inf
deriving DecidableEq, Repr

/-- Python `<` on latencies (`float('inf')` compares above every finite value). -/
def pingLt : Ping → Ping → Bool
  | .fin a, .fin b => decide (a < b)
  | .fin _, .inf => true
  | .inf, _ => false

/-- Python `<=` on latencies. -/
def pingLe : Ping → Ping → Bool
  | .fin a, .fin b => decide (a ≤ b)
  | .fin _, .inf => true
  | .inf, .fin _ => false
  | .inf, .inf => true

/-- A parsed channel candidate, as built by parse_playlist. -/
structure Candidate where
  name : Str
  url : Str
  group : Str
  logo : Str
  source_file : Str
deriving DecidableEq, Repr

/-- A stored channel record, as built by update_channel_db. -/
structure RegistryEntry where
  name : Str
  url : Str
  group : Str
  logo : Str
  ping : Ping
  source : Str
deriving DecidableEq, Repr

/-- The channels_db dictionary: insertion-ordered key/value pairs. -/
abbrev Registry : Type := List (Str × RegistryEntry)

/-- Python dict lookup (`key in d` / `d[key]`). -/
def dictGet : Registry → Str → Option RegistryEntry
  | [], _ => none
  | (k, v) :: rest, key => if k = key then some v else dictGet rest key

/-- Python dict assignment `d[key] = v`: replace in place, or append. -/
def dictSet : Registry → Str → RegistryEntry → Registry
  | [], key, v => [(key, v)]
  | (k, w) :: rest, key, v =>
    if k = key then (key, v) :: rest else (k, w) :: dictSet rest key v

/-- The RegistryEntry literal built inside update_channel_db. -/
def mkRegistryEntry (channel : Candidate) (ping : Ping) : RegistryEntry :=
  { name := channel.name, url := channel.url, group := channel.group,
    logo := channel.logo, ping := ping, source := channel.source_file }

/-- update_channel_db (src/main.py lines 433-456): key is
name.lower().strip(); with remove_duplicates on, insert when absent and
replace only on strictly lower ping; with it off, do nothing. -/
def update_channel_db (remove_duplicates : Bool) (db : Registry)
    (channel : Candidate) (ping : Ping) : Registry :=
  let channel_key := pyStrip (pyLower channel.name)
  if remove_duplicates then
    match dictGet db channel_key with
    | some stored =>
      if pingLt ping stored.ping then
        dictSet db channel_key (mkRegistryEntry channel ping)
      else db
    | none => dictSet db channel_key (mkRegistryEntry channel ping)
  else db

/-- Consumption of one probe result in process_playlists (lines 421-425):
update_channel_db is called only when the candidate is available. -/
def consumeResult (remove_duplicates : Bool) (db : Registry)
    (r : Candidate × Ping × Bool) : Registry :=
  if r.2.2 then update_channel_db remove_duplicates db r.1 r.2.1 else db

/-- Consumption of a whole stream of probe results, in completion order. -/
def consumeResults (remove_duplicates : Bool) (db : Registry)
    (rs : List (Candidate × Ping × Bool)) : Registry :=
  rs.foldl (consumeResult remove_duplicates) db

/-- Outcome of the single HEAD request issued by the probe: either an HTTP
response with a status code and an elapsed wall-clock time in seconds, or a
transport-level failure (timeout, refusal, TLS error, ...). -/
inductive ProbeOutcome where
  | response (status : Nat) (elapsedSec : ℚ)
  | failure
deriving DecidableEq, Repr

/-- check_channel_availability (lines 356-385).  When checking is disabled the
candidate is reported alive with latency 0.  Otherwise response_time starts at
infinity and available at False; on a response, available is tested against
[200, 302, 301, 307] and response_time is set to the elapsed time in
milliseconds; on an exception both retain their initial values. -/
def check_channel_availability (enable_availability_check : Bool)
    (channel : Candidate) (o : ProbeOutcome) : Candidate × Ping × Bool :=
  if enable_availability_check then
    match o with
    | .response status elapsedSec =>
      (channel, Ping.fin (elapsedSec * 1000),
        status = 200 || status = 302 || status = 301 || status = 307)
    | .failure => (channel, Ping.inf, false)
  else (channel, Ping.fin 0, true)

/-- Insertion step of a stable sort. -/
def pyInsert (le : α → α → Bool) (a : α) : List α → List α
  | [] => [a]
  | b :: bs => if le a b then a :: b :: bs else b :: pyInsert le a bs

/-- Stable sort, modelling Python sorted(...) with an ascending key. -/
def pySort (le : α → α → Bool) : List α → List α
  | [] => []
  | a :: xs => pyInsert le a (pySort le xs)

/-- Python `<=` on strings: code-point lexicographic order. -/
def strLe : Str → Str → Bool
  | [], _ => true
  | _ :: _, [] => false
  | a :: xs, b :: ys => if a = b then strLe xs ys else decide (a < b)

/-- sort_channels (lines 519-529): sort by the configured method, falling
back to ping order for any unrecognized method. -/
def sort_channels (sorting : Str) (channels : List RegistryEntry) :
    List RegistryEntry :=
  if sorting = str "ping" then
    pySort (fun a b => pingLe a.ping b.ping) channels
  else if sorting = str "name" then
    pySort (fun a b => strLe (pyLower a.name) (pyLower b.name)) channels
  else if sorting = str "group" then
    pySort (fun a b =>
      if a.group = b.group then strLe (pyLower a.name) (pyLower b.name)
      else strLe a.group b.group) channels
  else
    pySort (fun a b => pingLe a.ping b.ping) channels

/-- Does the pattern match at the head of the text?  (Python startswith, and
the anchored-literal part of the regular-expression matches used below.) -/
def matchesAt : Str → Str → Bool
  | [], _ => true
  | _ :: _, [] => false
  | p :: ps, c :: cs => if p = c then matchesAt ps cs else false

/-- Python str.split on a newline: every newline separates, empty pieces are
kept, so the result is always nonempty. -/
def splitLines : Str → List Str
  | [] => [[]]
  | c :: cs =>
    if c = '\n' then [] :: splitLines cs
    else
      match splitLines cs with
      | l :: ls => (c :: l) :: ls
      | [] => [[c]]

/-- Python newline.join(lines). -/
def joinLines : List Str → Str
  | [] => []
  | [l] => l
  | l :: ls => l ++ '\n' :: joinLines ls

/-- Drop text through the first occurrence of the pattern; none when the
pattern never occurs (the non-greedy `.*?pat` step of the block regexes). -/
def dropToAfter (pat : Str) : Str → Option Str
  | [] => none
  | c :: cs =>
    if matchesAt pat (c :: cs) then some ((c :: cs).drop pat.length)
    else dropToAfter pat cs

/-- Match one `<open[^>]*>.*?<close>` block at the head of the text, returning
the remainder after the block, or none when the regex cannot match here. -/
def matchBlock (openTag closeTag : Str) (cs : Str) : Option Str :=
  if matchesAt openTag cs then
    let rest1 := cs.drop openTag.length
    match rest1.dropWhile (fun c => c ≠ '>') with
    | '>' :: rest3 => dropToAfter closeTag rest3
    | _ => none
  else none

/-- re.sub of `<open[^>]*>.*?<close>` with the empty string: leftmost,
non-overlapping, continuing after each removed block.  The fuel argument is
always called with more fuel than characters, so it never runs out. -/
def reSubBlocks (openTag closeTag : Str) : Nat → Str → Str
  | 0, cs => cs
  | _ + 1, [] => []
  | fuel + 1, c :: cs =>
    match matchBlock openTag closeTag (c :: cs) with
    | some rest => reSubBlocks openTag closeTag fuel rest
    | none => c :: reSubBlocks openTag closeTag fuel cs

/-- Match one `<[^>]+>` tag at the head of the text, returning the remainder
after the tag. -/
def matchTag (cs : Str) : Option Str :=
  match cs with
  | '<' :: r :: rest =>
    if r = '>' then none
    else
      match (r :: rest).dropWhile (fun c => c ≠ '>') with
      | '>' :: rest2 => some rest2
      | _ => none
  | _ => none

/-- re.sub of `<[^>]+>` with the empty string. -/
def reSubTags : Nat → Str → Str
  | 0, cs => cs
  | _ + 1, [] => []
  | fuel + 1, c :: cs =>
    match matchTag (c :: cs) with
    | some rest => reSubTags fuel rest
    | none => c :: reSubTags fuel cs

/-- The line state machine of clean_html_content (lines 187-201), carrying
the accumulated m3u_lines in reverse. -/
def m3uScan : List Str → Bool → List Str → List Str
  | [], _, acc => acc.reverse
  | line :: rest, in_m3u, acc =>
    if matchesAt (str "#EXTM3U") line then m3uScan rest true (line :: acc)
    else if matchesAt (str "#EXTINF:") line then m3uScan rest true (line :: acc)
    else if in_m3u && matchesAt (str "http") line then
      m3uScan rest in_m3u (line :: acc)
    else if in_m3u && pyStrip line = [] then
      match acc with
      | prev :: _ =>
        if matchesAt (str "http") prev then m3uScan rest in_m3u acc
        else m3uScan rest in_m3u (line :: acc)
      | [] => m3uScan rest in_m3u acc
    else if in_m3u && !(matchesAt (str "#") line) then
      if !(matchesAt (str "http") line) then m3uScan rest false acc
      else m3uScan rest in_m3u acc
    else m3uScan rest in_m3u acc

/-- clean_html_content (lines 170-209): pass through content already starting
with a playlist marker; otherwise strip script and style blocks and all
remaining tags, normalize to trimmed non-blank lines, and run the m3u line
state machine; return the joined extracted lines, or empty when none. -/
def clean_html_content (content : Str) : Str :=
  if matchesAt (str "#EXTM3U") (pyStrip content) ||
      matchesAt (str "#EXTINF:") (pyStrip content) then content
  else
    let c1 := reSubBlocks (str "<script") (str "</script>")
      (content.length + 1) content
    let c2 := reSubBlocks (str "<style") (str "</style>") (c1.length + 1) c1
    let c3 := reSubTags (c2.length + 1) c2
    let joined := joinLines
      (((splitLines c3).map pyStrip).filter (fun l => l ≠ []))
    let lines := splitLines joined
    let m3u_lines := m3uScan lines false []
    if m3u_lines ≠ [] then joinLines m3u_lines else []

/-- Decimal digit character (for Python str(int)). -/
def digitChar (n : Nat) : Char := Char.ofNat (48 + n % 10)

/-- Auxiliary decimal printer; fuel always exceeds the digit count. -/
def natToStrGo : Nat → Nat → Str → Str
  | 0, _, acc => acc
  | fuel + 1, n, acc =>
    let acc' := digitChar n :: acc
    if n < 10 then acc' else natToStrGo fuel (n / 10) acc'

/-- Python str(n) for a natural number. -/
def natToStr (n : Nat) : Str := natToStrGo (n + 1) n []

/-- The EXTINF line written for one channel (lines 501-504). -/
def extinfLine (e : RegistryEntry) : Str :=
  str "#EXTINF:-1 tvg-id=\"" ++ e.name ++ str "\" tvg-name=\"" ++ e.name ++
    str "\" tvg-logo=\"" ++ e.logo ++ str "\" group-title=\"" ++ e.group ++
    str "\"," ++ e.name

/-- The channel loop of generate_playlist (lines 493-505): group markers are
written when the group changes, preceded by a blank line unless the running
group is still the initial empty string. -/
def renderBody : Str → List RegistryEntry → Str
  | _, [] => []
  | current_group, e :: rest =>
    (if e.group = current_group then []
     else
       (if current_group = [] then [] else ['\n']) ++
         str "#GROUP: " ++ e.group ++ ['\n']) ++
    extinfLine e ++ ['\n'] ++ e.url ++ ['\n'] ++ renderBody e.group rest

/-- The header written by generate_playlist (lines 488-491).  The timestamp
and the formatted average ping depend on the wall clock and on float
formatting, so they are passed in as opaque strings. -/
def renderHeader (generated avgPing : Str) (total : Nat) : Str :=
  str "#EXTM3U\n" ++ str "# Generated: " ++ generated ++
    str "\n# Total channels: " ++ natToStr total ++
    str "\n# Average ping: " ++ avgPing ++ str "ms\n\n"

/-- The full text written by generate_playlist for an already-sorted list. -/
def renderSorted (generated avgPing : Str)
    (sorted_channels : List RegistryEntry) : Str :=
  renderHeader generated avgPing sorted_channels.length ++
    renderBody [] sorted_channels

/-- Sorting followed by rendering, as generate_playlist does (lines 479-505). -/
def renderText (sorting generated avgPing : Str)
    (channels : List RegistryEntry) : Str :=
  renderSorted generated avgPing (sort_channels sorting channels)

/-- generate_playlist (lines 472-512) as a file transformer: an empty
registry returns early leaving the output file untouched; otherwise the
sorted registry values replace its contents. -/
def generate_playlist (sorting generated avgPing : Str) (db : Registry)
    (output_file : Str) : Str :=
  if db = [] then output_file
  else renderText sorting generated avgPing (db.map Prod.snd)

/-- process_playlists (lines 387-431): an empty source-URL list or an empty
parsed candidate set ends the cycle with the registry untouched; otherwise
every candidate is probed and the results merged in completion order.
Fetching and parsing are network effects, so the flat candidate list (in the
completion order in which results are drained) and each candidate's probe
outcome are parameters. -/
def process_playlists (remove_duplicates enable_availability_check : Bool)
    (playlist_urls : List Str) (all_channels : List Candidate)
    (outcome : Candidate → ProbeOutcome) (db : Registry) : Registry :=
  if playlist_urls = [] then db
  else if all_channels = [] then db
  else consumeResults remove_duplicates db
    (all_channels.map (fun c =>
      check_channel_availability enable_availability_check c (outcome c)))

/-- One iteration of run() (lines 600-604): process_playlists, then
generate_playlist, both unconditionally. -/
def runCycle (remove_duplicates enable_availability_check : Bool)
    (playlist_urls : List Str) (all_channels : List Candidate)
    (outcome : Candidate → ProbeOutcome) (sorting generated avgPing : Str)
    (db : Registry) (output_file : Str) : Registry × Str :=
  let db' := process_playlists remove_duplicates enable_availability_check
    playlist_urls all_channels outcome db
  (db', generate_playlist sorting generated avgPing db' output_file)

/-- A line carrying a group marker. -/
def isGroupMarker (l : Str) : Bool := matchesAt (str "#GROUP:") l

/-- Line at an index of a line list (empty when out of range). -/
def lineAt (lines : List Str) (i : Nat) : Str := lines.getD i []

/-- Group of the channel at an index (empty when out of range). -/
def groupAt (chans : List RegistryEntry) (k : Nat) : Str :=
  ((chans.getD k ⟨[], [], [], [], Ping.inf, []⟩).group)

/-- The C8 claim as stated, over the rendered text of a sorted channel list:
a `#GROUP:` marker line for the group of each position whose group differs
from its predecessor's (the first channel always starting a group), and a
blank line immediately preceding every marker line except the first marker
line of the text. -/
def c8ClaimProp (generated avgPing : Str) (chans : List RegistryEntry) :
    Prop :=
  (∀ k, k < chans.length →
    (k = 0 ∨ groupAt chans k ≠ groupAt chans (k - 1)) →
    (str "#GROUP: " ++ groupAt chans k) ∈
      splitLines (renderSorted generated avgPing chans)) ∧
  (∀ i, i < (splitLines (renderSorted generated avgPing chans)).length →
    isGroupMarker (lineAt (splitLines (renderSorted generated avgPing chans)) i) →
    (∃ j, j < i ∧ isGroupMarker
      (lineAt (splitLines (renderSorted generated avgPing chans)) j)) →
    0 < i ∧ lineAt (splitLines (renderSorted generated avgPing chans)) (i - 1) = [])

/-- The channels used to refute the C8 claim: a channel with an empty group
between two channels with distinct nonempty groups, listed in ascending ping
order so that the list is sorted. -/
def c8Chans : List RegistryEntry :=
  [⟨str "N1", str "http://u1", str "X", str "", Ping.fin 1, str "s"⟩,
   ⟨str "N2", str "http://u2", str "", str "", Ping.fin 2, str "s"⟩,
   ⟨str "N3", str "http://u3", str "Y", str "", Ping.fin 3, str "s"⟩]

/-- Rendered-body line layout as stated by the amended C8 claim: for each
channel, a group marker appears exactly when its group differs from the
previous channel's group (the group before the first channel being the empty
string), preceded by a blank line exactly when a previous channel exists and
its group is nonempty; then the channel's EXTINF line and its URL line. -/
def layoutLinesSpec : Str → List RegistryEntry → List Str
  | _, [] => []
  | prevGroup, e :: rest =>
    (if e.group = prevGroup then []
     else (if prevGroup = [] then [] else [[]]) ++
       [str "#GROUP: " ++ e.group]) ++
    [extinfLine e, e.url] ++ layoutLinesSpec e.group rest

/-- Leftmost match of the regular expression `pre([^"]*)"` over the text:
scan for the first position where the literal pattern is a prefix and a
closing quote follows, and capture the characters up to that quote; keep
scanning otherwise.  This is re.search as used by extract_field, whose
pattern is a literal followed by a quoted capture group. -/
def searchQuoted (pre : Str) : Str → Option Str
  | [] => none
  | c :: cs =>
    if matchesAt pre (c :: cs) then
      if ((c :: cs).drop pre.length).contains '"' then
        some (((c :: cs).drop pre.length).takeWhile (fun x => x ≠ '"'))
      else searchQuoted pre cs
    else searchQuoted pre cs

/-- extract_field (lines 333-342): first match of `field="([^"]*)"`, or the
empty string when there is none. -/
def extract_field (extinf field : Str) : Str :=
  match searchQuoted (field ++ str "=\"") extinf with
  | some v => v
  | none => []

/-- The re.sub removing one leading and one trailing quote character
(pattern `^["\x27]|["\x27]$`) in extract_name. -/
def stripOneQuote (s : Str) : Str :=
  let s1 := match s with
    | c :: cs => if c = '"' ∨ c = '\'' then cs else c :: cs
    | [] => []
  match s1.reverse with
  | c :: cs => if c = '"' ∨ c = '\'' then cs.reverse else s1
  | [] => s1

/-- extract_name (lines 344-354): the text after the last comma, stripped,
with one surrounding quote character removed from each end; empty when the
line has no comma. -/
def extract_name (extinf : Str) : Str :=
  if extinf.contains ',' then
    stripOneQuote (pyStrip (extinf.reverse.takeWhile (fun c => c ≠ ',')).reverse)
  else []

/-- The URL-scheme test of parse_playlist (line 301). -/
def isStreamUrl (l : Str) : Bool :=
  matchesAt (str "http://") l || matchesAt (str "https://") l ||
    matchesAt (str "rtmp://") l || matchesAt (str "rtsp://") l

/-- The channel record built by parse_playlist for one EXTINF/URL pair
(lines 304-319). -/
def buildChannel (min_channel_name_length : Nat) (source_file : Str)
    (extinf_line url_line : Str) (channel_count : Nat) : Candidate :=
  let name0 := extract_field extinf_line (str "tvg-name")
  let name1 := if name0 = [] then extract_name extinf_line else name0
  let group0 := extract_field extinf_line (str "group-title")
  let group := if group0 = [] then str "Other" else group0
  let logo := extract_field extinf_line (str "tvg-logo")
  let name :=
    if name1 = [] ∨ (pyStrip name1).length < min_channel_name_length then
      str "Channel_" ++ natToStr channel_count
    else name1
  { name := pyStrip name, url := pyStrip url_line, group := pyStrip group,
    logo := pyStrip logo, source_file := source_file }

/-- The index loop of parse_playlist (lines 288-324), phrased over the
remaining lines with the pending EXTINF line as state: after an EXTINF line,
blank and `#`-prefixed lines are skipped; the next other line either is a
stream URL, producing a channel, or silently drops the pending entry. -/
def parseLines (min_channel_name_length : Nat) (source_file : Str) :
    List Str → Option Str → Nat → List Candidate
  | [], _, _ => []
  | l :: rest, none, channel_count =>
    if matchesAt (str "#EXTINF:") l then
      parseLines min_channel_name_length source_file rest (some l) channel_count
    else
      parseLines min_channel_name_length source_file rest none channel_count
  | l :: rest, some extinf_line, channel_count =>
    if l = [] ∨ matchesAt (str "#") l then
      parseLines min_channel_name_length source_file rest (some extinf_line)
        channel_count
    else if isStreamUrl l then
      buildChannel min_channel_name_length source_file extinf_line l
          channel_count ::
        parseLines min_channel_name_length source_file rest none
          (channel_count + 1)
    else
      parseLines min_channel_name_length source_file rest none channel_count

/-- parse_playlist (lines 279-331) on file contents: split into trimmed
non-blank lines and walk them. -/
def parse_playlist (min_channel_name_length : Nat) (source_file : Str)
    (content : Str) : List Candidate :=
  parseLines min_channel_name_length source_file
    (((splitLines content).map pyStrip).filter (fun l => l ≠ [])) none 0

/-- The (name, url, group) view of a parsed candidate. -/
def candidateTriple (c : Candidate) : Str × Str × Str := (c.name, c.url, c.group)

/-- The (name, url, group) view of a registry entry. -/
def entryTriple (e : RegistryEntry) : Str × Str × Str := (e.name, e.url, e.group)

/-- Characters over which the amended round trip is stated: ASCII uppercase
letters, digits and the space, which are inert for the attribute regexes, the
quote delimiters and the line structure of the rendered format. -/
def safeChar (c : Char) : Bool :=
  (decide ('A' ≤ c) && decide (c ≤ 'Z')) ||
    (decide ('0' ≤ c) && decide (c ≤ '9')) || c = ' '

/-- A string neither starting nor ending with whitespace (so Python strip
leaves it unchanged). -/
def edgeOk (s : Str) : Bool :=
  (match s.head? with
   | some c => !(isPySpace c)
   | none => true) &&
  (match s.getLast? with
   | some c => !(isPySpace c)
   | none => true)

/-- Side conditions on one registry entry under which the rendered entry
parses back unchanged: name and group over the safe alphabet, non-blank at
their edges, the name at least the configured minimum length, the logo over
the safe alphabet, and a whitespace-free URL with a recognized scheme. -/
def SafeEntry (min_channel_name_length : Nat) (e : RegistryEntry) : Prop :=
  e.name.all safeChar = true ∧ e.name ≠ [] ∧ edgeOk e.name = true ∧
    min_channel_name_length ≤ e.name.length ∧
    e.group.all safeChar = true ∧ e.group ≠ [] ∧ edgeOk e.group = true ∧
    e.logo.all safeChar = true ∧
    isStreamUrl e.url = true ∧ e.url.all (fun c => !(isPySpace c)) = true

/-- Pattern matching against the text definitely fails within the listed
prefix: some compared position disagrees before the prefix runs out. -/
def definiteFail : Str → Str → Bool
  | [], _ => false
  | _ :: _, [] => false
  | p :: ps, c :: cs => if p = c then definiteFail ps cs else true

/-- The rendered body lines that survive trimming and blank-line removal:
the group markers and, per channel, the EXTINF and URL lines. -/
def cleanBodyLines : Str → List RegistryEntry → List Str
  | _, [] => []
  | prevGroup, e :: rest =>
    (if e.group = prevGroup then [] else [str "#GROUP: " ++ e.group]) ++
      [extinfLine e, e.url] ++ cleanBodyLines e.group rest

/- Registry lemmas. -/

theorem dictGet_dictSet (db : Registry) (k : Str) (v : RegistryEntry)
    (k' : Str) :
    dictGet (dictSet db k v) k' = if k = k' then some v else dictGet db k' := by
  induction db with
  | nil => by_cases h : k = k' <;> simp [dictSet, dictGet, h]
  | cons a rest ih =>
    obtain ⟨ak, av⟩ := a
    by_cases h1 : ak = k
    · subst h1
      by_cases h2 : ak = k' <;> simp [dictSet, dictGet, h2, ih]
    · by_cases h2 : ak = k'
      · subst h2
        have hne : ¬ k = ak := fun hh => h1 hh.symm
        simp [dictSet, dictGet, h1, hne, ih]
      · simp [dictSet, dictGet, h1, h2, ih]

theorem pingLe_refl (p : Ping) : pingLe p p = true := by
  cases p <;> simp [pingLe]

theorem pingLe_of_pingLt {p q : Ping} (h : pingLt p q = true) :
    pingLe p q = true := by
  cases p <;> cases q <;> simp_all [pingLt, pingLe] <;> exact le_of_lt h

theorem pingLe_trans {p q r : Ping} (h1 : pingLe p q = true)
    (h2 : pingLe q r = true) : pingLe p r = true := by
  cases p <;> cases q <;> cases r <;> simp_all [pingLe] <;> exact le_trans h1 h2

/-- C1: merge postcondition with dedup enabled.  A dead probe result leaves
the registry unchanged; a live candidate whose normalized key is absent is
inserted; a live candidate whose key is present replaces the stored entry
exactly when its latency is strictly lower, and otherwise the registry is
unchanged. -/
theorem merge_postcondition_dedup (db : Registry) (channel : Candidate)
    (ping : Ping) (alive : Bool) :
    (alive = false → consumeResult true db (channel, ping, alive) = db) ∧
    (alive = true →
      (dictGet db (pyStrip (pyLower channel.name)) = none →
        ∀ k, dictGet (consumeResult true db (channel, ping, alive)) k =
          if pyStrip (pyLower channel.name) = k then
            some (mkRegistryEntry channel ping)
          else dictGet db k) ∧
      (∀ stored, dictGet db (pyStrip (pyLower channel.name)) = some stored →
        (pingLt ping stored.ping = true →
          ∀ k, dictGet (consumeResult true db (channel, ping, alive)) k =
            if pyStrip (pyLower channel.name) = k then
              some (mkRegistryEntry channel ping)
            else dictGet db k) ∧
        (pingLt ping stored.ping = false →
          consumeResult true db (channel, ping, alive) = db))) := by
  refine ⟨fun h => by simp [consumeResult, h], fun h => ⟨fun habs k => ?_, ?_⟩⟩
  · subst h
    simp [consumeResult, update_channel_db, habs, dictGet_dictSet]
  · intro stored hpres
    subst h
    constructor
    · intro hlt k
      simp [consumeResult, update_channel_db, hpres, hlt, dictGet_dictSet]
    · intro hge
      simp [consumeResult, update_channel_db, hpres, hge]

theorem merge_postcondition_dedup_witness :
    dictGet (consumeResult true []
        ((⟨str "Alpha", str "url1", str "G", str "", str "s"⟩ : Candidate),
          Ping.fin 5, true)) (str "alpha") =
      some (mkRegistryEntry
        (⟨str "Alpha", str "url1", str "G", str "", str "s"⟩ : Candidate)
        (Ping.fin 5)) := by
  have h := ((merge_postcondition_dedup []
    (⟨str "Alpha", str "url1", str "G", str "", str "s"⟩ : Candidate)
    (Ping.fin 5) true).2 rfl).1 rfl (str "alpha")
  rw [h]
  decide

/-- Helper for C2: one consumption step never removes a key and never
increases the stored ping of any key. -/
theorem consumeResult_mono (dedup : Bool) (db : Registry)
    (r : Candidate × Ping × Bool) (k : Str) (e : RegistryEntry)
    (h : dictGet db k = some e) :
    ∃ e', dictGet (consumeResult dedup db r) k = some e' ∧
      pingLe e'.ping e.ping = true := by
  obtain ⟨c, p, a⟩ := r
  cases a with
  | false => exact ⟨e, by simpa [consumeResult] using h, pingLe_refl _⟩
  | true =>
    cases dedup with
    | false => exact ⟨e, by simpa [consumeResult, update_channel_db] using h,
        pingLe_refl _⟩
    | true =>
      rcases hsk : dictGet db (pyStrip (pyLower c.name)) with _ | stored
      · by_cases hk : pyStrip (pyLower c.name) = k
        · rw [hk] at hsk; rw [hsk] at h; cases h
        · exact ⟨e, by simp [consumeResult, update_channel_db, hsk,
            dictGet_dictSet, hk, h], pingLe_refl _⟩
      · by_cases hlt : pingLt p stored.ping
        · by_cases hk : pyStrip (pyLower c.name) = k
          · rw [hk] at hsk
            refine ⟨mkRegistryEntry c p, by
              simp [consumeResult, update_channel_db, hk, hsk, hlt,
                dictGet_dictSet], ?_⟩
            rw [hsk] at h
            obtain rfl : stored = e := by injection h
            exact pingLe_of_pingLt hlt
          · exact ⟨e, by simp [consumeResult, update_channel_db, hsk, hlt,
              dictGet_dictSet, hk, h], pingLe_refl _⟩
        · exact ⟨e, by simp [consumeResult, update_channel_db, hsk, hlt, h],
            pingLe_refl _⟩

/-- C2: across any sequence of merged probe results, no registry key is ever
removed, and the stored ping under any key never increases. -/
theorem registry_monotone (dedup : Bool) (db : Registry)
    (ops : List (Candidate × Ping × Bool)) (k : Str) (e : RegistryEntry)
    (h : dictGet db k = some e) :
    ∃ e', dictGet (consumeResults dedup db ops) k = some e' ∧
      pingLe e'.ping e.ping = true := by
  induction ops generalizing db e with
  | nil => exact ⟨e, h, pingLe_refl _⟩
  | cons r rs ih =>
    obtain ⟨e1, h1, hle1⟩ := consumeResult_mono dedup db r k e h
    obtain ⟨e2, h2, hle2⟩ := ih (consumeResult dedup db r) e1 h1
    exact ⟨e2, by simpa [consumeResults] using h2, pingLe_trans hle2 hle1⟩

theorem registry_monotone_witness :
    dictGet [(str "k",
        (⟨str "K", str "u", str "G", str "", Ping.fin 50, str "s"⟩ :
          RegistryEntry))] (str "k") =
      some (⟨str "K", str "u", str "G", str "", Ping.fin 50, str "s"⟩ :
        RegistryEntry) ∧
    ∃ e', dictGet (consumeResults true
        [(str "k",
          (⟨str "K", str "u", str "G", str "", Ping.fin 50, str "s"⟩ :
            RegistryEntry))]
        [((⟨str "K", str "u2", str "G", str "", str "s"⟩ : Candidate),
          Ping.fin 30, true)]) (str "k") = some e' ∧
      pingLe e'.ping (Ping.fin 50) = true := by
  refine ⟨by decide, ?_⟩
  exact registry_monotone true
    [(str "k",
      (⟨str "K", str "u", str "G", str "", Ping.fin 50, str "s"⟩ :
        RegistryEntry))]
    [((⟨str "K", str "u2", str "G", str "", str "s"⟩ : Candidate),
      Ping.fin 30, true)] (str "k")
    (⟨str "K", str "u", str "G", str "", Ping.fin 50, str "s"⟩ : RegistryEntry)
    (by decide)

/-- C3 counterexample: with availability checking enabled, a response with
status 404 after 5 seconds is classified not alive, but the recorded latency
is the measured 5000 ms, not positive infinity, contradicting the claim that
any non-alive probe records infinite latency. -/
theorem probe_latency_counterexample :
    ¬ (((check_channel_availability true
          (⟨str "N", str "http://u", str "G", str "", str "s"⟩ : Candidate)
          (.response 404 5)).2.2 = false) →
       ((check_channel_availability true
          (⟨str "N", str "http://u", str "G", str "", str "s"⟩ : Candidate)
          (.response 404 5)).2.1 = Ping.inf)) := by
  decide

/-- C3 amended: with availability checking enabled, a received response is
alive exactly when its status is one of 200, 301, 302, 307, and its recorded
latency is the measured elapsed time in milliseconds (whether alive or not);
only a transport-level failure records latency positive infinity (and is not
alive). -/
theorem probe_classification (channel : Candidate) (status : Nat) (t : ℚ) :
    ((check_channel_availability true channel (.response status t)).2.2 = true ↔
      (status = 200 ∨ status = 301 ∨ status = 302 ∨ status = 307)) ∧
    ((check_channel_availability true channel (.response status t)).2.1 =
      Ping.fin (t * 1000)) ∧
    (check_channel_availability true channel .failure =
      (channel, Ping.inf, false)) := by
  refine ⟨?_, rfl, rfl⟩
  simp [check_channel_availability]
  tauto

/-- C5: merging ("Alpha", url1, ping 50) and ("alpha ", url2, ping 30) into an
empty registry with dedup enabled yields, in either order, the same single
entry under the normalized key "alpha", carrying ping 30 and url2. -/
theorem dedup_merge_order_independent :
    consumeResult true (consumeResult true []
        ((⟨str "Alpha", str "url1", str "G", str "", str "s"⟩ : Candidate),
          Ping.fin 50, true))
        ((⟨str "alpha ", str "url2", str "G", str "", str "s"⟩ : Candidate),
          Ping.fin 30, true) =
      consumeResult true (consumeResult true []
        ((⟨str "alpha ", str "url2", str "G", str "", str "s"⟩ : Candidate),
          Ping.fin 30, true))
        ((⟨str "Alpha", str "url1", str "G", str "", str "s"⟩ : Candidate),
          Ping.fin 50, true) ∧
    consumeResult true (consumeResult true []
        ((⟨str "Alpha", str "url1", str "G", str "", str "s"⟩ : Candidate),
          Ping.fin 50, true))
        ((⟨str "alpha ", str "url2", str "G", str "", str "s"⟩ : Candidate),
          Ping.fin 30, true) =
      [(str "alpha",
        (⟨str "alpha ", str "url2", str "G", str "", Ping.fin 30, str "s"⟩ :
          RegistryEntry))] := by
  constructor <;> decide

/-- C9: with remove_duplicates disabled, update_channel_db's entire body is
skipped, so consuming any probe result leaves the registry unchanged, and a
registry starting empty stays empty over any result stream. -/
theorem merge_noop_without_dedup :
    (∀ (db : Registry) (r : Candidate × Ping × Bool),
      consumeResult false db r = db) ∧
    (∀ ops : List (Candidate × Ping × Bool), consumeResults false [] ops = []) := by
  have h1 : ∀ (db : Registry) (r : Candidate × Ping × Bool),
      consumeResult false db r = db := by
    intro db r
    obtain ⟨c, p, a⟩ := r
    cases a <;> simp [consumeResult, update_channel_db]
  refine ⟨h1, fun ops => ?_⟩
  induction ops with
  | nil => rfl
  | cons r rs ih => simpa [consumeResults, h1] using ih

/-- C10: an unrecognized sorting method falls back to ping-ascending order. -/
theorem sort_channels_fallback (sorting : Str)
    (channels : List RegistryEntry) (h1 : sorting ≠ str "ping")
    (h2 : sorting ≠ str "name") (h3 : sorting ≠ str "group") :
    sort_channels sorting channels = sort_channels (str "ping") channels := by
  simp [sort_channels, h1, h2, h3]

theorem sort_channels_fallback_witness :
    (str "latency" ≠ str "ping" ∧ str "latency" ≠ str "name" ∧
      str "latency" ≠ str "group") ∧
    sort_channels (str "latency")
        [(⟨str "A", str "u", str "G", str "", Ping.fin 3, str "s"⟩ :
          RegistryEntry)] =
      sort_channels (str "ping")
        [(⟨str "A", str "u", str "G", str "", Ping.fin 3, str "s"⟩ :
          RegistryEntry)] := by
  exact ⟨⟨by decide, by decide, by decide⟩,
    sort_channels_fallback _ _ (by decide) (by decide) (by decide)⟩

/-- C6: for the document wrapping the three playlist lines inside
html/body/script markup, extraction returns exactly those three lines, in
order, with the script block and all remaining tags removed. -/
theorem html_extraction_recovers_m3u :
    splitLines (clean_html_content
        (str "<html><body><script>...</script>#EXTM3U\n#EXTINF:-1,Test\nhttp://x/y</body></html>")) =
      [str "#EXTM3U", str "#EXTINF:-1,Test", str "http://x/y"] := by
  decide

/-- C7 counterexample: with an empty source-URL list but a nonempty persisted
registry, run() still calls generate_playlist, which rewrites the output
file; the existing output is therefore modified in that cycle, contradicting
the claim. -/
theorem cycle_empty_urls_counterexample :
    (runCycle true true [] [] (fun _ => ProbeOutcome.failure)
        (str "ping") (str "T") (str "A")
        [(str "k",
          (⟨str "N", str "http://u", str "G", str "", Ping.fin 1, str "s"⟩ :
            RegistryEntry))]
        (str "old")).2 ≠ str "old" := by
  decide

/-- C7 amended: when the registry holds no channels after the merge phase,
the output file is untouched; when the source-URL list is empty the merge
phase leaves the registry unchanged, but the output file is still rewritten
from the persisted registry whenever that registry is nonempty (so only an
empty registry protects the existing output). -/
theorem cycle_early_exit (remove_duplicates enable_availability_check : Bool)
    (playlist_urls : List Str) (all_channels : List Candidate)
    (outcome : Candidate → ProbeOutcome) (sorting generated avgPing : Str)
    (db : Registry) (output_file : Str) :
    ((runCycle remove_duplicates enable_availability_check playlist_urls
        all_channels outcome sorting generated avgPing db output_file).1 = [] →
      (runCycle remove_duplicates enable_availability_check playlist_urls
        all_channels outcome sorting generated avgPing db output_file).2 =
        output_file) ∧
    (playlist_urls = [] →
      (runCycle remove_duplicates enable_availability_check playlist_urls
        all_channels outcome sorting generated avgPing db output_file).1 = db ∧
      (db ≠ [] →
        (runCycle remove_duplicates enable_availability_check playlist_urls
          all_channels outcome sorting generated avgPing db output_file).2 =
          renderText sorting generated avgPing (db.map Prod.snd))) := by
  constructor
  · intro h
    simp only [runCycle] at h ⊢
    simp [generate_playlist, h]
  · intro h
    subst h
    refine ⟨by simp [runCycle, process_playlists], fun hdb => ?_⟩
    simp [runCycle, process_playlists, generate_playlist, hdb]

theorem cycle_early_exit_witness :
    (runCycle true true [] [] (fun _ => ProbeOutcome.failure)
        (str "ping") (str "T") (str "A") [] (str "old")).2 = str "old" := by
  exact (cycle_early_exit true true [] [] (fun _ => ProbeOutcome.failure)
    (str "ping") (str "T") (str "A") [] (str "old")).1 (by decide)

theorem splitLines_newline_cons (w : Str) :
    splitLines ('\n' :: w) = [] :: splitLines w := by
  simp [splitLines]

theorem splitLines_line (xs ys : Str) (h : '\n' ∉ xs) :
    splitLines (xs ++ '\n' :: ys) = xs :: splitLines ys := by
  induction xs with
  | nil => simp [splitLines]
  | cons c cs ih =>
    have hc : ¬ c = '\n' := fun hh => h (by simp [hh])
    have h2 : '\n' ∉ cs := fun hm => h (List.mem_cons_of_mem _ hm)
    simp [splitLines, hc, ih h2]

theorem noNL_extinfLine (e : RegistryEntry) (h1 : '\n' ∉ e.name)
    (h2 : '\n' ∉ e.logo) (h3 : '\n' ∉ e.group) : '\n' ∉ extinfLine e := by
  simp only [extinfLine, List.mem_append, not_or]
  exact ⟨⟨⟨⟨⟨⟨⟨⟨⟨by decide, h1⟩, by decide⟩, h1⟩, by decide⟩, h2⟩,
    by decide⟩, h3⟩, by decide⟩, h1⟩

theorem noNL_marker (g : Str) (hg : '\n' ∉ g) :
    '\n' ∉ str "#GROUP: " ++ g := by
  intro hm
  rcases List.mem_append.mp hm with h | h
  · exact absurd h (by decide)
  · exact hg h

theorem renderBody_lines (chans : List RegistryEntry) :
    ∀ prevGroup, (∀ e ∈ chans,
      '\n' ∉ e.name ∧ '\n' ∉ e.logo ∧ '\n' ∉ e.group ∧ '\n' ∉ e.url) →
    splitLines (renderBody prevGroup chans) =
      layoutLinesSpec prevGroup chans ++ [[]] := by
  induction chans with
  | nil => intro pg _; simp [renderBody, layoutLinesSpec, splitLines]
  | cons e rest ih =>
    intro pg hf
    obtain ⟨hn, hl, hg, hu⟩ := hf e (List.mem_cons_self _ _)
    have hrest : ∀ e' ∈ rest,
        '\n' ∉ e'.name ∧ '\n' ∉ e'.logo ∧ '\n' ∉ e'.group ∧ '\n' ∉ e'.url :=
      fun e' he' => hf e' (List.mem_cons_of_mem _ he')
    have hext : '\n' ∉ extinfLine e := noNL_extinfLine e hn hl hg
    by_cases hgc : e.group = pg
    · have hb : renderBody pg (e :: rest) =
          extinfLine e ++ '\n' :: (e.url ++ '\n' :: renderBody e.group rest) := by
        simp [renderBody, hgc]
      rw [hb, splitLines_line _ _ hext, splitLines_line _ _ hu,
        ih e.group hrest]
      simp [layoutLinesSpec, hgc]
    · have hmk : '\n' ∉ str "#GROUP: " ++ e.group := noNL_marker e.group hg
      by_cases hpg : pg = []
      · subst hpg
        have hb : renderBody [] (e :: rest) =
            (str "#GROUP: " ++ e.group) ++ '\n' :: (extinfLine e ++
              '\n' :: (e.url ++ '\n' :: renderBody e.group rest)) := by
          simp [renderBody, hgc]
        rw [hb, splitLines_line _ _ hmk, splitLines_line _ _ hext,
          splitLines_line _ _ hu, ih e.group hrest]
        simp [layoutLinesSpec, hgc]
      · have hb : renderBody pg (e :: rest) =
            '\n' :: ((str "#GROUP: " ++ e.group) ++ '\n' :: (extinfLine e ++
              '\n' :: (e.url ++ '\n' :: renderBody e.group rest))) := by
          simp [renderBody, hgc, hpg]
        rw [hb, splitLines_newline_cons, splitLines_line _ _ hmk,
          splitLines_line _ _ hext, splitLines_line _ _ hu, ih e.group hrest]
        simp [layoutLinesSpec, hgc, hpg]

/-- C8 counterexample: the sorted list c8Chans (groups "X", "", "Y") renders
with the marker for "Y" immediately preceded by a URL line rather than a
blank line, although an earlier marker exists, refuting the claimed layout. -/
theorem render_layout_counterexample :
    sort_channels (str "ping") c8Chans = c8Chans ∧
    ¬ c8ClaimProp (str "T") (str "A") c8Chans := by
  refine ⟨by decide, ?_⟩
  unfold c8ClaimProp
  decide

/-- C8 amended: for every nonempty channel list with newline-free fields, the
rendered body consists, per channel, of a `#GROUP:` marker exactly when its
group differs from the previous channel's group (the group before the first
channel being empty), preceded by a blank line exactly when a previous
channel exists and its group is nonempty, followed by the channel's EXTINF
and URL lines. -/
theorem render_group_layout (chans : List RegistryEntry) (hne : chans ≠ [])
    (hf : ∀ e ∈ chans,
      '\n' ∉ e.name ∧ '\n' ∉ e.logo ∧ '\n' ∉ e.group ∧ '\n' ∉ e.url) :
    splitLines (renderBody [] chans) = layoutLinesSpec [] chans ++ [[]] :=
  renderBody_lines chans [] hf

theorem render_group_layout_witness :
    (([⟨str "N1", str "http://u1", str "X", str "", Ping.fin 1, str "s"⟩] :
        List RegistryEntry) ≠ []) ∧
    splitLines (renderBody []
        [⟨str "N1", str "http://u1", str "X", str "", Ping.fin 1, str "s"⟩]) =
      layoutLinesSpec []
        [⟨str "N1", str "http://u1", str "X", str "", Ping.fin 1, str "s"⟩] ++
        [[]] :=
  ⟨by decide, render_group_layout _ (by decide) (by decide)⟩

/-- C4 counterexample: a registry entry whose one-character name "A" is below
the parser's minimum name length renders and then re-parses to the synthetic
name "Channel_0", so the parsed set of (name, url, group) triples differs
from the original set. -/
theorem round_trip_counterexample :
    (parse_playlist 2 (str "f") (renderText (str "ping") (str "T") (str "A")
        [⟨str "A", str "http://u", str "G", str "", Ping.fin 1, str "s"⟩])).map
        candidateTriple =
      [(str "Channel_0", str "http://u", str "G")] ∧
    ([(⟨str "A", str "http://u", str "G", str "", Ping.fin 1, str "s"⟩ :
        RegistryEntry)]).map entryTriple =
      [(str "A", str "http://u", str "G")] ∧
    (str "Channel_0", str "http://u", str "G") ≠
      (str "A", str "http://u", str "G") := by
  refine ⟨by decide, by decide, by decide⟩

theorem matchesAt_self_append (xs ys : Str) : matchesAt xs (xs ++ ys) = true := by
  induction xs with
  | nil => rfl
  | cons c cs ih => simp [matchesAt, ih]

theorem matchesAt_append_left (pat xs ys : Str)
    (h : matchesAt pat xs = true) : matchesAt pat (xs ++ ys) = true := by
  induction xs generalizing pat with
  | nil =>
    cases pat with
    | nil => rfl
    | cons p ps => simp [matchesAt] at h
  | cons c cs ih =>
    cases pat with
    | nil => rfl
    | cons p ps =>
      rw [List.cons_append]
      by_cases hpc : p = c
      · subst hpc
        simp only [matchesAt, if_pos rfl] at h ⊢
        exact ih ps h
      · simp [matchesAt, hpc] at h

theorem matchesAt_mono (pat t s : Str) (h : matchesAt pat t = true)
    (hp : t <+: s) : matchesAt pat s = true := by
  obtain ⟨r, rfl⟩ := hp
  exact matchesAt_append_left pat t r h

theorem matchesAt_head_eq (p : Char) (ps u : Str)
    (h : matchesAt (p :: ps) u = true) : ∃ us, u = p :: us := by
  cases u with
  | nil => simp [matchesAt] at h
  | cons c cs =>
    by_cases hpc : p = c
    · exact ⟨cs, by rw [hpc]⟩
    · simp [matchesAt, hpc] at h

theorem matchesAt_false_of_definiteFail (pre xs ys : Str)
    (h : definiteFail pre xs = true) : matchesAt pre (xs ++ ys) = false := by
  induction xs generalizing pre with
  | nil => cases pre <;> simp [definiteFail] at h
  | cons c cs ih =>
    cases pre with
    | nil => simp [definiteFail] at h
    | cons p ps =>
      by_cases hpc : p = c
      · subst hpc
        simp only [definiteFail, if_pos rfl] at h
        rw [List.cons_append]
        simp only [matchesAt, if_pos rfl]
        exact ih ps h
      · rw [List.cons_append]
        simp [matchesAt, hpc]

theorem searchQuoted_cons_of_not (pre : Str) (c : Char) (cs : Str)
    (h : matchesAt pre (c :: cs) = false) :
    searchQuoted pre (c :: cs) = searchQuoted pre cs := by
  simp [searchQuoted, h]

theorem searchQuoted_append_skip (pre xs ys : Str)
    (h : ∀ n, n < xs.length → matchesAt pre (xs.drop n ++ ys) = false) :
    searchQuoted pre (xs ++ ys) = searchQuoted pre ys := by
  induction xs with
  | nil => simp
  | cons c cs ih =>
    have h0 := h 0 (by simp)
    rw [List.cons_append, searchQuoted_cons_of_not _ _ _ (by simpa using h0)]
    exact ih (fun n hn => by simpa using h (n + 1) (by simpa using Nat.succ_lt_succ hn))

theorem searchQuoted_skip_lit (pre lit rest : Str)
    (h : ∀ n, n < lit.length → definiteFail pre (lit.drop n) = true) :
    searchQuoted pre (lit ++ rest) = searchQuoted pre rest := by
  refine searchQuoted_append_skip pre lit rest (fun n hn => ?_)
  exact matchesAt_false_of_definiteFail _ _ _ (h n hn)

theorem searchQuoted_skip_safe (pre N rest : Str) (p : Char) (ps : Str)
    (hpre : pre = p :: ps) (hp : safeChar p = false)
    (hN : N.all safeChar = true) :
    searchQuoted pre (N ++ rest) = searchQuoted pre rest := by
  subst hpre
  induction N with
  | nil => rfl
  | cons c cs ih =>
    simp only [List.all_cons, Bool.and_eq_true] at hN
    have hne : ¬ p = c := by
      rintro rfl
      rw [hN.1] at hp
      cases hp
    rw [List.cons_append,
      searchQuoted_cons_of_not _ _ _ (by simp [matchesAt, hne])]
    exact ih hN.2

theorem contains_of_mem {a : Char} {l : Str} (h : a ∈ l) :
    l.contains a = true := by
  induction l with
  | nil => cases h
  | cons b bs ih =>
    rcases List.mem_cons.mp h with rfl | h2
    · simp [List.contains_cons]
    · simp [List.contains_cons]
      exact Or.inr h2

theorem searchQuoted_found (pre tail : Str) (p : Char) (ps : Str)
    (hpre : pre = p :: ps) (hq : '"' ∈ tail) :
    searchQuoted pre (pre ++ tail) =
      some (tail.takeWhile (fun x => x ≠ '"')) := by
  subst hpre
  have hm : matchesAt (p :: ps) ((p :: ps) ++ tail) = true :=
    matchesAt_self_append _ _
  have hd : ((p :: ps) ++ tail).drop (p :: ps).length = tail :=
    List.drop_left _ _
  have hc : tail.contains '"' = true := contains_of_mem hq
  rw [List.cons_append] at hm hd ⊢
  simp only [searchQuoted, hm, hd, hc, if_true]

theorem takeWhile_safe_append (N z : Str) (hN : N.all safeChar = true) :
    (N ++ '"' :: z).takeWhile (fun x => x ≠ '"') = N := by
  induction N with
  | nil =>
    rw [List.nil_append]
    exact List.takeWhile_cons_of_neg (by simp)
  | cons c cs ih =>
    simp only [List.all_cons, Bool.and_eq_true] at hN
    have hcq : c ≠ '"' := by
      rintro rfl
      exact absurd hN.1 (by decide)
    rw [List.cons_append, List.takeWhile_cons_of_pos (by simp [hcq]),
      ih hN.2]

theorem lit_name_split (X : Str) :
    str "\" tvg-name=\"" ++ X = '"' :: (' ' :: (str "tvg-name=\"" ++ X)) := rfl

theorem lit_logo_split (X : Str) :
    str "\" tvg-logo=\"" ++ X = '"' :: (str " tvg-logo=\"" ++ X) := rfl

theorem lit_group_split (X : Str) :
    str "\" group-title=\"" ++ X =
      '"' :: (' ' :: (str "group-title=\"" ++ X)) := rfl

theorem lit_comma_split (X : Str) :
    str "\"," ++ X = '"' :: (str "," ++ X) := rfl

theorem skip_quote_space_name (X : Str) :
    searchQuoted (str "tvg-name=\"") ('"' :: (' ' :: X)) =
      searchQuoted (str "tvg-name=\"") X := by
  rw [searchQuoted_cons_of_not (str "tvg-name=\"") '"' (' ' :: X) rfl,
    searchQuoted_cons_of_not (str "tvg-name=\"") ' ' X rfl]

theorem skip_quote_space_group (X : Str) :
    searchQuoted (str "group-title=\"") ('"' :: (' ' :: X)) =
      searchQuoted (str "group-title=\"") X := by
  rw [searchQuoted_cons_of_not (str "group-title=\"") '"' (' ' :: X) rfl,
    searchQuoted_cons_of_not (str "group-title=\"") ' ' X rfl]

theorem extinf_assoc (e : RegistryEntry) :
    extinfLine e =
      str "#EXTINF:-1 tvg-id=\"" ++ (e.name ++ (str "\" tvg-name=\"" ++
        (e.name ++ (str "\" tvg-logo=\"" ++ (e.logo ++
          (str "\" group-title=\"" ++ (e.group ++
            (str "\"," ++ e.name)))))))) := by
  simp [extinfLine, List.append_assoc]

theorem searchQuoted_name (e : RegistryEntry)
    (hn : e.name.all safeChar = true) :
    searchQuoted (str "tvg-name=\"") (extinfLine e) = some e.name := by
  rw [extinf_assoc, lit_name_split, lit_logo_split]
  rw [searchQuoted_skip_lit (str "tvg-name=\"") (str "#EXTINF:-1 tvg-id=\"") _
    (by decide)]
  rw [searchQuoted_skip_safe (str "tvg-name=\"") e.name _ 't'
    (str "vg-name=\"") rfl (by decide) hn]
  rw [skip_quote_space_name]
  rw [searchQuoted_found (str "tvg-name=\"")
    (e.name ++ ('"' :: (str " tvg-logo=\"" ++ (e.logo ++
      (str "\" group-title=\"" ++ (e.group ++ (str "\"," ++ e.name)))))))
    't' (str "vg-name=\"") rfl
    (List.mem_append.mpr (Or.inr (List.mem_cons_self _ _)))]
  rw [takeWhile_safe_append _ _ hn]

theorem searchQuoted_group (e : RegistryEntry)
    (hn : e.name.all safeChar = true) (hl : e.logo.all safeChar = true)
    (hgp : e.group.all safeChar = true) :
    searchQuoted (str "group-title=\"") (extinfLine e) = some e.group := by
  rw [extinf_assoc, lit_group_split, lit_comma_split]
  rw [searchQuoted_skip_lit (str "group-title=\"")
    (str "#EXTINF:-1 tvg-id=\"") _ (by decide)]
  rw [searchQuoted_skip_safe (str "group-title=\"") e.name _ 'g'
    (str "roup-title=\"") rfl (by decide) hn]
  rw [searchQuoted_skip_lit (str "group-title=\"") (str "\" tvg-name=\"") _
    (by decide)]
  rw [searchQuoted_skip_safe (str "group-title=\"") e.name _ 'g'
    (str "roup-title=\"") rfl (by decide) hn]
  rw [searchQuoted_skip_lit (str "group-title=\"") (str "\" tvg-logo=\"") _
    (by decide)]
  rw [searchQuoted_skip_safe (str "group-title=\"") e.logo _ 'g'
    (str "roup-title=\"") rfl (by decide) hl]
  rw [skip_quote_space_group]
  rw [searchQuoted_found (str "group-title=\"")
    (e.group ++ ('"' :: (str "," ++ e.name))) 'g' (str "roup-title=\"") rfl
    (List.mem_append.mpr (Or.inr (List.mem_cons_self _ _)))]
  rw [takeWhile_safe_append _ _ hgp]

theorem extract_field_name (e : RegistryEntry)
    (hn : e.name.all safeChar = true) :
    extract_field (extinfLine e) (str "tvg-name") = e.name := by
  have hpat : str "tvg-name" ++ str "=\"" = str "tvg-name=\"" := rfl
  simp [extract_field, hpat, searchQuoted_name e hn]

theorem extract_field_group (e : RegistryEntry)
    (hn : e.name.all safeChar = true) (hl : e.logo.all safeChar = true)
    (hgp : e.group.all safeChar = true) :
    extract_field (extinfLine e) (str "group-title") = e.group := by
  have hpat : str "group-title" ++ str "=\"" = str "group-title=\"" := rfl
  simp [extract_field, hpat, searchQuoted_group e hn hl hgp]

theorem dropWhile_eq_self_of_head (l : Str)
    (h : ∀ c, l.head? = some c → isPySpace c = false) :
    l.dropWhile isPySpace = l := by
  cases l with
  | nil => rfl
  | cons c cs => simp [List.dropWhile_cons, h c rfl]

theorem pyStrip_eq_self (s : Str)
    (h1 : ∀ c, s.head? = some c → isPySpace c = false)
    (h2 : ∀ c, s.getLast? = some c → isPySpace c = false) :
    pyStrip s = s := by
  unfold pyStrip
  rw [dropWhile_eq_self_of_head s h1]
  rw [dropWhile_eq_self_of_head s.reverse
    (fun c hc => h2 c (by rwa [← List.head?_reverse]))]
  exact List.reverse_reverse s

theorem pyStrip_eq_self_of_edgeOk (s : Str) (h : edgeOk s = true) :
    pyStrip s = s := by
  unfold edgeOk at h
  rw [Bool.and_eq_true] at h
  refine pyStrip_eq_self s ?_ ?_
  · intro c hc
    have hx := h.1
    rw [hc] at hx
    simpa using hx
  · intro c hc
    have hx := h.2
    rw [hc] at hx
    simpa using hx

theorem edgeOk_of_all_nonspace (s : Str)
    (h : s.all (fun c => !(isPySpace c)) = true) : edgeOk s = true := by
  unfold edgeOk
  rw [Bool.and_eq_true]
  constructor
  · cases hh : s.head? with
    | none => rfl
    | some c =>
      have hc : c ∈ s := List.mem_of_mem_head? (by simp [hh])
      have := List.all_eq_true.mp h c hc
      simpa using this
  · cases hh : s.getLast? with
    | none => rfl
    | some c =>
      have hrev : s.reverse.head? = some c := by
        rw [List.head?_reverse]
        exact hh
      have hc : c ∈ s := List.mem_reverse.mp (List.mem_of_mem_head? (by simp [hrev]))
      have := List.all_eq_true.mp h c hc
      simpa using this

theorem buildChannel_triple (minLen : Nat) (src_ : Str) (e : RegistryEntry)
    (count : Nat) (hse : SafeEntry minLen e) :
    candidateTriple (buildChannel minLen src_ (extinfLine e) e.url count) =
      entryTriple e := by
  obtain ⟨hn, hne, hedge, hlen, hg, hgne, hgedge, hl, hurl, hunsp⟩ := hse
  have e1 : extract_field (extinfLine e) (str "tvg-name") = e.name :=
    extract_field_name e hn
  have e2 : extract_field (extinfLine e) (str "group-title") = e.group :=
    extract_field_group e hn hl hg
  have hsn : pyStrip e.name = e.name := pyStrip_eq_self_of_edgeOk _ hedge
  have hsg : pyStrip e.group = e.group := pyStrip_eq_self_of_edgeOk _ hgedge
  have hsu : pyStrip e.url = e.url :=
    pyStrip_eq_self_of_edgeOk _ (edgeOk_of_all_nonspace _ hunsp)
  have hnotshort : ¬ (e.name = [] ∨ (pyStrip e.name).length < minLen) := by
    rw [hsn]
    push_neg
    exact ⟨hne, by omega⟩
  have hnl : ¬ e.name.length < minLen := by omega
  simp [buildChannel, candidateTriple, entryTriple, e1, e2, hne, hgne,
    hnotshort, hnl, hsn, hsg, hsu]

theorem pyInsert_perm (le : α → α → Bool) (a : α) (l : List α) :
    List.Perm (pyInsert le a l) (a :: l) := by
  induction l with
  | nil => exact List.Perm.refl _
  | cons b bs ih =>
    by_cases h : le a b = true
    · simp [pyInsert, h]
    · simp only [pyInsert, if_neg h]
      exact List.Perm.trans (List.Perm.cons b ih) (List.Perm.swap a b bs)

theorem pySort_perm (le : α → α → Bool) (l : List α) :
    List.Perm (pySort le l) l := by
  induction l with
  | nil => exact List.Perm.refl _
  | cons a xs ih =>
    exact List.Perm.trans (pyInsert_perm le a (pySort le xs))
      (List.Perm.cons a ih)

theorem sort_channels_perm (sorting : Str) (channels : List RegistryEntry) :
    List.Perm (sort_channels sorting channels) channels := by
  unfold sort_channels
  split_ifs <;> exact pySort_perm _ _

theorem hsplit1 (X : Str) : str "#EXTM3U\n" ++ X = str "#EXTM3U" ++ '\n' :: X := rfl

theorem hsplit3 (X : Str) :
    str "\n# Total channels: " ++ X = '\n' :: (str "# Total channels: " ++ X) := rfl

theorem hsplit4 (X : Str) :
    str "\n# Average ping: " ++ X = '\n' :: (str "# Average ping: " ++ X) := rfl

theorem hsplit5 (X : Str) : str "ms\n\n" ++ X = str "ms" ++ '\n' :: ('\n' :: X) := rfl

theorem digitChar_ne_newline (n : Nat) : digitChar n ≠ '\n' := by
  have h : n % 10 < 10 := Nat.mod_lt _ (by norm_num)
  have hall : ∀ k, k < 10 → Char.ofNat (48 + k) ≠ '\n' := by decide
  exact hall (n % 10) h

theorem natToStrGo_no_newline (fuel : Nat) :
    ∀ n acc, '\n' ∉ acc → '\n' ∉ natToStrGo fuel n acc := by
  induction fuel with
  | zero => intro n acc h; exact h
  | succ f ih =>
    intro n acc h
    have hd : '\n' ∉ (digitChar n :: acc) := by
      intro hm
      rcases List.mem_cons.mp hm with he | hm2
      · exact digitChar_ne_newline n he.symm
      · exact h hm2
    by_cases hn : n < 10
    · simpa [natToStrGo, hn] using hd
    · simpa [natToStrGo, hn] using ih (n / 10) (digitChar n :: acc) hd

theorem noNL_natToStr (n : Nat) : '\n' ∉ natToStr n :=
  natToStrGo_no_newline (n + 1) n [] (by intro h; cases h)

theorem splitLines_header (generated avgPing body : Str) (n : Nat)
    (hg : '\n' ∉ generated) (ha : '\n' ∉ avgPing) :
    splitLines (renderHeader generated avgPing n ++ body) =
      str "#EXTM3U" :: (str "# Generated: " ++ generated) ::
        (str "# Total channels: " ++ natToStr n) ::
        (str "# Average ping: " ++ (avgPing ++ str "ms")) :: [] ::
        splitLines body := by
  have hshape : renderHeader generated avgPing n ++ body =
      str "#EXTM3U" ++ '\n' :: ((str "# Generated: " ++ generated) ++
        '\n' :: ((str "# Total channels: " ++ natToStr n) ++
          '\n' :: ((str "# Average ping: " ++ (avgPing ++ str "ms")) ++
            '\n' :: ('\n' :: body)))) := by
    simp only [renderHeader, List.append_assoc, hsplit1, hsplit3, hsplit4,
      hsplit5, List.cons_append]
  have hgen : '\n' ∉ str "# Generated: " ++ generated := by
    intro hm
    rcases List.mem_append.mp hm with h | h
    · exact absurd h (by decide)
    · exact hg h
  have htot : '\n' ∉ str "# Total channels: " ++ natToStr n := by
    intro hm
    rcases List.mem_append.mp hm with h | h
    · exact absurd h (by decide)
    · exact noNL_natToStr n h
  have havg : '\n' ∉ str "# Average ping: " ++ (avgPing ++ str "ms") := by
    intro hm
    rcases List.mem_append.mp hm with h | h
    · exact absurd h (by decide)
    · rcases List.mem_append.mp h with h2 | h2
      · exact ha h2
      · exact absurd h2 (by decide)
  rw [hshape, splitLines_line _ _ (by decide), splitLines_line _ _ hgen,
    splitLines_line _ _ htot, splitLines_line _ _ havg, splitLines_newline_cons]

theorem noNL_of_all_safe {s : Str} (h : s.all safeChar = true) : '\n' ∉ s :=
  fun hm => absurd (List.all_eq_true.mp h _ hm) (by decide)

theorem noNL_of_all_nonspace {s : Str}
    (h : s.all (fun c => !(isPySpace c)) = true) : '\n' ∉ s :=
  fun hm => absurd (List.all_eq_true.mp h _ hm) (by decide)

theorem head?_edge (s : Str) (hedge : edgeOk s = true) (c : Char)
    (hc : s.head? = some c) : isPySpace c = false := by
  unfold edgeOk at hedge
  rw [Bool.and_eq_true] at hedge
  have hx := hedge.1
  rw [hc] at hx
  simpa using hx

theorem getLast?_edge (s : Str) (hedge : edgeOk s = true) (c : Char)
    (hc : s.getLast? = some c) : isPySpace c = false := by
  unfold edgeOk at hedge
  rw [Bool.and_eq_true] at hedge
  have hx := hedge.2
  rw [hc] at hx
  simpa using hx

theorem getLast?_append_right (l1 l2 : Str) (h : l2 ≠ []) :
    (l1 ++ l2).getLast? = l2.getLast? := by
  rw [← List.head?_reverse, ← List.head?_reverse, List.reverse_append]
  cases hrev : l2.reverse with
  | nil => exact absurd (by simpa using hrev) h
  | cons d ds => rfl

theorem pyStrip_extinf (e : RegistryEntry) (hne : e.name ≠ [])
    (hedge : edgeOk e.name = true) :
    pyStrip (extinfLine e) = extinfLine e := by
  refine pyStrip_eq_self _ ?_ ?_
  · intro c hc
    have hh : (extinfLine e).head? = some '#' := rfl
    rw [hh] at hc
    injection hc with h'
    subst h'
    decide
  · intro c hc
    have h1 : (extinfLine e).getLast? = e.name.getLast? := by
      unfold extinfLine
      exact getLast?_append_right _ _ hne
    rw [h1] at hc
    exact getLast?_edge e.name hedge c hc

theorem pyStrip_marker (g : Str) (hgne : g ≠ []) (hedge : edgeOk g = true) :
    pyStrip (str "#GROUP: " ++ g) = str "#GROUP: " ++ g := by
  refine pyStrip_eq_self _ ?_ ?_
  · intro c hc
    have hh : (str "#GROUP: " ++ g).head? = some '#' := rfl
    rw [hh] at hc
    injection hc with h'
    subst h'
    decide
  · intro c hc
    have h1 : (str "#GROUP: " ++ g).getLast? = g.getLast? :=
      getLast?_append_right _ _ hgne
    rw [h1] at hc
    exact getLast?_edge g hedge c hc

theorem extinfLine_ne_nil (e : RegistryEntry) : extinfLine e ≠ [] := by
  intro h
  have hh : (extinfLine e).head? = some '#' := rfl
  rw [h] at hh
  cases hh

theorem marker_ne_nil (g : Str) : str "#GROUP: " ++ g ≠ [] := by
  intro h
  have hh : (str "#GROUP: " ++ g).head? = some '#' := rfl
  rw [h] at hh
  cases hh

theorem streamUrl_head (u : Str) (h : isStreamUrl u = true) :
    u ≠ [] ∧ matchesAt (str "#") u = false := by
  unfold isStreamUrl at h
  simp only [Bool.or_eq_true] at h
  rcases h with ((h | h) | h) | h
  · obtain ⟨us, rfl⟩ :=
      matchesAt_head_eq 'h' (str "ttp://") u h
    exact ⟨List.cons_ne_nil _ _, rfl⟩
  · obtain ⟨us, rfl⟩ :=
      matchesAt_head_eq 'h' (str "ttps://") u h
    exact ⟨List.cons_ne_nil _ _, rfl⟩
  · obtain ⟨us, rfl⟩ :=
      matchesAt_head_eq 'r' (str "tmp://") u h
    exact ⟨List.cons_ne_nil _ _, rfl⟩
  · obtain ⟨us, rfl⟩ :=
      matchesAt_head_eq 'r' (str "tsp://") u h
    exact ⟨List.cons_ne_nil _ _, rfl⟩

theorem pyStrip_nil : pyStrip ([] : Str) = [] := rfl

theorem cleanBody_filter (minLen : Nat) (L : List RegistryEntry) :
    ∀ pg, (∀ e ∈ L, SafeEntry minLen e) →
    ((layoutLinesSpec pg L).map pyStrip).filter (fun l => l ≠ []) =
      cleanBodyLines pg L := by
  induction L with
  | nil => intro pg _; rfl
  | cons e rest ih =>
    intro pg hs
    obtain ⟨hn, hne, hedge, hlen, hgp, hgne, hgedge, hl, hurl, hunsp⟩ :=
      hs e (List.mem_cons_self _ _)
    have hrest : ∀ e' ∈ rest, SafeEntry minLen e' :=
      fun e' he' => hs e' (List.mem_cons_of_mem _ he')
    have hsx : pyStrip (extinfLine e) = extinfLine e := pyStrip_extinf e hne hedge
    have hsm : pyStrip (str "#GROUP: " ++ e.group) = str "#GROUP: " ++ e.group :=
      pyStrip_marker e.group hgne hgedge
    have hsu : pyStrip e.url = e.url :=
      pyStrip_eq_self_of_edgeOk _ (edgeOk_of_all_nonspace _ hunsp)
    obtain ⟨hune, _⟩ := streamUrl_head e.url hurl
    by_cases hgc : e.group = pg
    · simp [layoutLinesSpec, cleanBodyLines, hgc, hsx, hsu,
        extinfLine_ne_nil e, hune]
      simpa using ih pg hrest
    · by_cases hpg : pg = []
      · subst hpg
        simp [layoutLinesSpec, cleanBodyLines, hgc, hsx, hsm, hsu,
          extinfLine_ne_nil e, marker_ne_nil e.group, hune]
        simpa using ih e.group hrest
      · simp [layoutLinesSpec, cleanBodyLines, hgc, hpg, hsx, hsm, hsu,
          pyStrip_nil, extinfLine_ne_nil e, marker_ne_nil e.group, hune]
        simpa using ih e.group hrest

theorem pyStrip_ne_nil (c : Char) (cs : Str) (hc : isPySpace c = false) :
    pyStrip (c :: cs) ≠ [] := by
  intro h
  unfold pyStrip at h
  rw [dropWhile_eq_self_of_head (c :: cs) (fun d hd => by
    have hdc : c = d := by injection hd
    rw [← hdc]
    exact hc)] at h
  rw [List.reverse_eq_nil_iff, List.dropWhile_eq_nil_iff] at h
  have := h c (by simp)
  rw [hc] at this
  cases this

theorem reversed_suffix_front {t l : Str} (h : t <:+ l.reverse) :
    t.reverse <+: l := by
  obtain ⟨r, hr⟩ := h
  exact ⟨r.reverse, by rw [← List.reverse_append, hr, List.reverse_reverse]⟩

theorem pyStrip_front (c : Char) (cs : Str) (hc : isPySpace c = false) :
    pyStrip (c :: cs) <+: (c :: cs) := by
  unfold pyStrip
  rw [dropWhile_eq_self_of_head (c :: cs) (fun d hd => by
    have hdc : c = d := by injection hd
    rw [← hdc]
    exact hc)]
  have hsuf : (c :: cs).reverse.dropWhile isPySpace <:+ (c :: cs).reverse :=
    List.dropWhile_suffix _
  exact reversed_suffix_front hsuf

theorem header_line_not_extinf (l : Str) (c : Char) (cs : Str)
    (hl : l = c :: cs) (hc : isPySpace c = false)
    (hm : matchesAt (str "#EXTINF:") l = false) :
    matchesAt (str "#EXTINF:") (pyStrip l) = false := by
  subst hl
  cases hmm : matchesAt (str "#EXTINF:") (pyStrip (c :: cs)) with
  | false => rfl
  | true =>
    have := matchesAt_mono _ _ _ hmm (pyStrip_front c cs hc)
    rw [hm] at this
    cases this

theorem parseLines_cons_extinf (minLen : Nat) (src_ l : Str)
    (rest : List Str) (count : Nat)
    (h : matchesAt (str "#EXTINF:") l = true) :
    parseLines minLen src_ (l :: rest) none count =
      parseLines minLen src_ rest (some l) count := by
  simp [parseLines, h]

theorem parseLines_cons_other (minLen : Nat) (src_ l : Str)
    (rest : List Str) (count : Nat)
    (h : matchesAt (str "#EXTINF:") l = false) :
    parseLines minLen src_ (l :: rest) none count =
      parseLines minLen src_ rest none count := by
  simp [parseLines, h]

theorem parseLines_url (minLen : Nat) (src_ ext l : Str) (rest : List Str)
    (count : Nat) (hne : l ≠ []) (hh : matchesAt (str "#") l = false)
    (hu : isStreamUrl l = true) :
    parseLines minLen src_ (l :: rest) (some ext) count =
      buildChannel minLen src_ ext l count ::
        parseLines minLen src_ rest none (count + 1) := by
  simp [parseLines, hne, hh, hu]

theorem parseLines_skip (minLen : Nat) (src_ : Str) (H B : List Str)
    (count : Nat) (h : ∀ l ∈ H, matchesAt (str "#EXTINF:") l = false) :
    parseLines minLen src_ (H ++ B) none count =
      parseLines minLen src_ B none count := by
  induction H with
  | nil => rfl
  | cons l ls ih =>
    rw [List.cons_append,
      parseLines_cons_other _ _ _ _ _ (h l (List.mem_cons_self _ _))]
    exact ih (fun x hx => h x (List.mem_cons_of_mem _ hx))

theorem parseLines_clean_body (minLen : Nat) (src_ : Str)
    (L : List RegistryEntry) :
    ∀ (pg : Str) (count : Nat), (∀ e ∈ L, SafeEntry minLen e) →
    (parseLines minLen src_ (cleanBodyLines pg L) none count).map
        candidateTriple = L.map entryTriple := by
  induction L with
  | nil => intro pg count _; rfl
  | cons e rest ih =>
    intro pg count hs
    have hse := hs e (List.mem_cons_self _ _)
    obtain ⟨hn, hne, hedge, hlen, hgp, hgne, hgedge, hl, hurl, hunsp⟩ := hse
    have hrest : ∀ e' ∈ rest, SafeEntry minLen e' :=
      fun e' he' => hs e' (List.mem_cons_of_mem _ he')
    obtain ⟨hune, hhash⟩ := streamUrl_head e.url hurl
    have hext_t : matchesAt (str "#EXTINF:") (extinfLine e) = true := by
      rw [extinf_assoc]
      exact matchesAt_append_left _ _ _ (by decide)
    have hmark_f :
        matchesAt (str "#EXTINF:") (str "#GROUP: " ++ e.group) = false :=
      matchesAt_false_of_definiteFail _ _ _ (by decide)
    by_cases hgc : e.group = pg
    · rw [show cleanBodyLines pg (e :: rest) =
          extinfLine e :: e.url :: cleanBodyLines e.group rest from by
        simp [cleanBodyLines, hgc]]
      rw [parseLines_cons_extinf _ _ _ _ _ hext_t,
        parseLines_url _ _ _ _ _ _ hune hhash hurl, List.map_cons,
        buildChannel_triple minLen src_ e count
          ⟨hn, hne, hedge, hlen, hgp, hgne, hgedge, hl, hurl, hunsp⟩,
        ih e.group (count + 1) hrest, List.map_cons]
    · rw [show cleanBodyLines pg (e :: rest) =
          (str "#GROUP: " ++ e.group) :: extinfLine e :: e.url ::
            cleanBodyLines e.group rest from by
        simp [cleanBodyLines, hgc]]
      rw [parseLines_cons_other _ _ _ _ _ hmark_f,
        parseLines_cons_extinf _ _ _ _ _ hext_t,
        parseLines_url _ _ _ _ _ _ hune hhash hurl, List.map_cons,
        buildChannel_triple minLen src_ e count
          ⟨hn, hne, hedge, hlen, hgp, hgne, hgedge, hl, hurl, hunsp⟩,
        ih e.group (count + 1) hrest, List.map_cons]

theorem parse_render_sorted (minLen : Nat) (src_ g a : Str)
    (L : List RegistryEntry) (hg : '\n' ∉ g) (ha : '\n' ∉ a)
    (hs : ∀ e ∈ L, SafeEntry minLen e) :
    (parse_playlist minLen src_ (renderSorted g a L)).map candidateTriple =
      L.map entryTriple := by
  have hfields : ∀ e ∈ L,
      '\n' ∉ e.name ∧ '\n' ∉ e.logo ∧ '\n' ∉ e.group ∧ '\n' ∉ e.url := by
    intro e he
    obtain ⟨hn, _, _, _, hgp, _, _, hl, _, hunsp⟩ := hs e he
    exact ⟨noNL_of_all_safe hn, noNL_of_all_safe hl, noNL_of_all_safe hgp,
      noNL_of_all_nonspace hunsp⟩
  have hlines : splitLines (renderSorted g a L) =
      str "#EXTM3U" :: (str "# Generated: " ++ g) ::
        (str "# Total channels: " ++ natToStr L.length) ::
        (str "# Average ping: " ++ (a ++ str "ms")) :: [] ::
        (layoutLinesSpec [] L ++ [[]]) := by
    unfold renderSorted
    rw [splitLines_header g a (renderBody [] L) L.length hg ha,
      renderBody_lines L [] hfields]
  unfold parse_playlist
  rw [hlines]
  have hp1 : pyStrip (str "#EXTM3U") = str "#EXTM3U" := by decide
  have hb2 : str "# Generated: " ++ g = '#' :: (str " Generated: " ++ g) := rfl
  have hb3 : str "# Total channels: " ++ natToStr L.length =
      '#' :: (str " Total channels: " ++ natToStr L.length) := rfl
  have hb4 : str "# Average ping: " ++ (a ++ str "ms") =
      '#' :: (str " Average ping: " ++ (a ++ str "ms")) := rfl
  have hne2 : pyStrip (str "# Generated: " ++ g) ≠ [] := by
    rw [hb2]; exact pyStrip_ne_nil _ _ (by decide)
  have hne3 : pyStrip (str "# Total channels: " ++ natToStr L.length) ≠ [] := by
    rw [hb3]; exact pyStrip_ne_nil _ _ (by decide)
  have hne4 : pyStrip (str "# Average ping: " ++ (a ++ str "ms")) ≠ [] := by
    rw [hb4]; exact pyStrip_ne_nil _ _ (by decide)
  have hm1 : matchesAt (str "#EXTINF:") (pyStrip (str "#EXTM3U")) = false := by
    decide
  have hm2 : matchesAt (str "#EXTINF:")
      (pyStrip (str "# Generated: " ++ g)) = false :=
    header_line_not_extinf _ _ _ hb2 (by decide)
      (matchesAt_false_of_definiteFail _ _ _ (by decide))
  have hm3 : matchesAt (str "#EXTINF:")
      (pyStrip (str "# Total channels: " ++ natToStr L.length)) = false :=
    header_line_not_extinf _ _ _ hb3 (by decide)
      (matchesAt_false_of_definiteFail _ _ _ (by decide))
  have hm4 : matchesAt (str "#EXTINF:")
      (pyStrip (str "# Average ping: " ++ (a ++ str "ms"))) = false :=
    header_line_not_extinf _ _ _ hb4 (by decide)
      (matchesAt_false_of_definiteFail _ _ _ (by decide))
  have hfilter :
      ((str "#EXTM3U" :: (str "# Generated: " ++ g) ::
          (str "# Total channels: " ++ natToStr L.length) ::
          (str "# Average ping: " ++ (a ++ str "ms")) :: [] ::
          (layoutLinesSpec [] L ++ [[]])).map pyStrip).filter
        (fun l => l ≠ []) =
      [pyStrip (str "#EXTM3U"), pyStrip (str "# Generated: " ++ g),
        pyStrip (str "# Total channels: " ++ natToStr L.length),
        pyStrip (str "# Average ping: " ++ (a ++ str "ms"))] ++
        cleanBodyLines [] L := by
    simp only [List.map_cons, List.map_append, List.filter_cons,
      List.filter_append]
    rw [cleanBody_filter minLen L [] hs]
    have hx1 : str "#EXTM3U" ≠ ([] : Str) := by decide
    simp [hp1, hx1, hne2, hne3, hne4, pyStrip_nil]
  rw [hfilter, parseLines_skip _ _ _ _ _ (by
    intro l hl
    rcases List.mem_cons.mp hl with rfl | hl
    · exact hm1
    rcases List.mem_cons.mp hl with rfl | hl
    · exact hm2
    rcases List.mem_cons.mp hl with rfl | hl
    · exact hm3
    rcases List.mem_cons.mp hl with rfl | hl
    · exact hm4
    cases hl)]
  exact parseLines_clean_body minLen src_ L [] 0 hs

/-- C4 amended: for entries whose name, group and logo range over uppercase
letters, digits and inner spaces (non-blank at the edges), whose name is at
least the configured minimum length, whose group is nonempty, and whose URL
is whitespace-free with a recognized scheme, rendering with the renderer and
re-parsing with the list parser yields the same set of (name, url, group)
triples (a permutation of the original list of triples).  Without such
restrictions the claim fails (see the counterexample): short names are
renamed, and quotes, newlines or attribute-pattern fragments inside fields
corrupt the regex-based re-parse. -/
theorem round_trip_amended (sorting generated avgPing : Str)
    (min_channel_name_length : Nat) (source_file : Str)
    (entries : List RegistryEntry)
    (hg : '\n' ∉ generated) (ha : '\n' ∉ avgPing)
    (hs : ∀ e ∈ entries, SafeEntry min_channel_name_length e) :
    List.Perm
      ((parse_playlist min_channel_name_length source_file
        (renderText sorting generated avgPing entries)).map candidateTriple)
      (entries.map entryTriple) := by
  have hperm := sort_channels_perm sorting entries
  have hs' : ∀ e ∈ sort_channels sorting entries,
      SafeEntry min_channel_name_length e :=
    fun e he => hs e (hperm.mem_iff.mp he)
  unfold renderText
  rw [parse_render_sorted _ _ _ _ _ hg ha hs']
  exact hperm.map entryTriple

theorem round_trip_amended_witness :
    ('\n' ∉ str "T") ∧ ('\n' ∉ str "A") ∧
    (∀ e ∈ [(⟨str "CNN", str "http://U", str "NEWS", str "", Ping.fin 5,
        str "s"⟩ : RegistryEntry)], SafeEntry 3 e) ∧
    List.Perm
      ((parse_playlist 3 (str "f")
        (renderText (str "ping") (str "T") (str "A")
          [⟨str "CNN", str "http://U", str "NEWS", str "", Ping.fin 5,
            str "s"⟩])).map candidateTriple)
      ([(⟨str "CNN", str "http://U", str "NEWS", str "", Ping.fin 5,
          str "s"⟩ : RegistryEntry)].map entryTriple) := by
  have hsafe : ∀ e ∈ [(⟨str "CNN", str "http://U", str "NEWS", str "",
      Ping.fin 5, str "s"⟩ : RegistryEntry)], SafeEntry 3 e := by
    intro e he
    rw [List.mem_singleton] at he
    subst he
    exact ⟨by decide, by decide, by decide, by decide, by decide, by decide,
      by decide, by decide, by decide, by decide⟩
  exact ⟨by decide, by decide, hsafe,
    round_trip_amended (str "ping") (str "T") (str "A") 3 (str "f") _
      (by decide) (by decide) hsafe⟩
